import Mathlib

/-!
Shallow embedding of the SmartMask detection-and-masking engine
(source file `src/celltest.py`).

Python strings are modelled as `List Char`; the ASCII fragment of Python's
`re` classes is used (`\d` = ASCII digit, `\w` = ASCII alphanumeric or `_`,
`\s` = ASCII whitespace), which covers all pattern and mask constants of the
program.  Python float confidences (`0.98`, ...) are modelled as rationals.
The spaCy named-entity model is external to the repository; per the spec
(§4.3) it yields entity spans with a category label, so it is modelled as an
abstract function producing labelled character spans, passed explicitly to
the detectors.
-/

/-! ### Character classes of the regex rule table -/

/-- ASCII word character, Python regex `\w` (letters, digits, underscore). -/
def isWordChar (c : Char) : Bool := c.isAlphanum || c = '_'

/-- ASCII whitespace, Python regex `\s`. -/
def isSpaceChar (c : Char) : Bool :=
  c = ' ' || c = '\t' || c = '\n' || c = '\r' || c = '\x0b' || c = '\x0c'

/-- Character class `[6-9]` of the phone pattern. -/
def isPhoneStart (c : Char) : Bool := c = '6' || c = '7' || c = '8' || c = '9'

/-- Character class `[a-zA-Z0-9._%+-]` (email local part). -/
def isLocalChar (c : Char) : Bool :=
  c.isAlphanum || c = '.' || c = '_' || c = '%' || c = '+' || c = '-'

/-- Character class `[a-zA-Z0-9.-]` (email domain part). -/
def isDomChar (c : Char) : Bool := c.isAlphanum || c = '.' || c = '-'

/-- Word-character test lifted to an optional character; out-of-range
positions (start and end of the text) count as non-word. -/
def wordOpt : Option Char → Bool
  | none => false
  | some c => isWordChar c

/-- Python regex `\b`: a word boundary lies between two adjacent positions
exactly when one side is a word character and the other is not. -/
def boundary (l r : Option Char) : Bool := wordOpt l != wordOpt r

/-! ### Matching of the fixed-length patterns -/

/-- Match a list of single-character predicates against the front of `cs`;
on success return the remaining characters. -/
def matchSeq : List (Char → Bool) → List Char → Option (List Char)
  | [], cs => some cs
  | _ :: _, [] => none
  | p :: ps, c :: cs =>
    match p c with
    | true => matchSeq ps cs
    | false => none

/-- Body of `aadhaar_pattern = re.compile(r"\b\d{4}\s\d{4}\s\d{4}\b")`
(the two `\b` anchors are handled by `tryFixed`). -/
def aadhaarPat : List (Char → Bool) :=
  [Char.isDigit, Char.isDigit, Char.isDigit, Char.isDigit, isSpaceChar,
   Char.isDigit, Char.isDigit, Char.isDigit, Char.isDigit, isSpaceChar,
   Char.isDigit, Char.isDigit, Char.isDigit, Char.isDigit]

/-- Body of `pan_pattern = re.compile(r"\b[A-Z]{5}\d{4}[A-Z]\b")`. -/
def panPat : List (Char → Bool) :=
  [Char.isUpper, Char.isUpper, Char.isUpper, Char.isUpper, Char.isUpper,
   Char.isDigit, Char.isDigit, Char.isDigit, Char.isDigit, Char.isUpper]

/-- Body of `phone_pattern = re.compile(r"\b[6-9]\d{9}\b")`. -/
def phonePat : List (Char → Bool) :=
  [isPhoneStart,
   Char.isDigit, Char.isDigit, Char.isDigit, Char.isDigit, Char.isDigit,
   Char.isDigit, Char.isDigit, Char.isDigit, Char.isDigit]

/-- Attempt a match of the word-bounded fixed-length pattern `pat` starting
exactly at the current position.  `prev` is the character immediately before
the position (`none` at the start of the text).  Returns the match length. -/
def tryFixed (pat : List (Char → Bool)) (prev : Option Char) (cs : List Char) :
    Option Nat :=
  match boundary prev cs.head? with
  | false => none
  | true =>
    match matchSeq pat cs with
    | none => none
    | some rest =>
      match boundary (cs.take pat.length).getLast? rest.head? with
      | false => none
      | true => some pat.length

def tryAadhaar : Option Char → List Char → Option Nat := tryFixed aadhaarPat

def tryPan : Option Char → List Char → Option Nat := tryFixed panPat

def tryPhone : Option Char → List Char → Option Nat := tryFixed phonePat

/-! ### Matching of the email pattern -/

/-- Length of the maximal run of characters satisfying `p` at the front. -/
def countLeading (p : Char → Bool) : List Char → Nat
  | [] => 0
  | c :: cs =>
    match p c with
    | true => countLeading p cs + 1
    | false => 0

/-- Match `[a-zA-Z0-9.-]+\.[A-Za-z]{2,}\b` (the part of the email pattern
after the `@`) against the front of `cs`, with Python's greedy backtracking:
the `+` run is tried longest first, then the `{2,}` run longest first.
Returns the number of characters consumed. -/
def emailTail (cs : List Char) : Option Nat :=
  let r := countLeading isDomChar cs
  (List.range r).findSome? fun i =>
    let k := r - i
    match cs.drop k with
    | '.' :: cs2 =>
      let m := countLeading Char.isAlpha cs2
      (List.range (m - 1)).findSome? fun jj =>
        let j := m - jj
        match boundary (cs2.take j).getLast? (cs2.drop j).head? with
        | true => some (k + 1 + j)
        | false => none
    | _ => none

/-- Attempt a match of
`email_pattern = re.compile(r"\b[a-zA-Z0-9._%+-]+@[a-zA-Z0-9.-]+\.[A-Za-z]{2,}\b")`
starting exactly at the current position; the local-part `+` run is greedy
with backtracking.  Returns the match length. -/
def tryEmail (prev : Option Char) (cs : List Char) : Option Nat :=
  match boundary prev cs.head? with
  | false => none
  | true =>
    let l := countLeading isLocalChar cs
    (List.range l).findSome? fun i =>
      let k := l - i
      match cs.drop k with
      | '@' :: cs2 =>
        match emailTail cs2 with
        | some t => some (k + 1 + t)
        | none => none
      | _ => none

/-! ### The finditer scan -/

/-- The character preceding the scan position after the scanner has stepped
over the characters of `p`: the last character of `p`, or the previous
`prev` when `p` is empty. -/
def prevAfter (prev : Option Char) : List Char → Option Char
  | [] => prev
  | c :: p => prevAfter (some c) p

/-- One step of `re.finditer`-style scanning: at each position attempt a
match with `try_`; on success emit the matched slice and resume after it,
otherwise advance one character.  `prev` is the character before the current
position, needed for `\b`.  `fuel` bounds the number of steps; every pattern
of the program matches at least one character, so `length + 1` steps always
suffice. -/
def scanAux (try_ : Option Char → List Char → Option Nat) :
    Nat → Option Char → List Char → List (List Char)
  | 0, _, _ => []
  | fuel + 1, prev, cs =>
    match try_ prev cs with
    | some n =>
      cs.take n :: scanAux try_ fuel (prevAfter prev (cs.take n)) (cs.drop n)
    | none =>
      match cs with
      | [] => []
      | c :: rest => scanAux try_ fuel (some c) rest

/-- All matched slices of `pattern.finditer(text)`, leftmost and
non-overlapping, in order. -/
def finditer (try_ : Option Char → List Char → Option Nat) (text : List Char) :
    List (List Char) :=
  scanAux try_ (text.length + 1) none text

/-! ### Detection records -/

/-- A detection record: the Python dict `{type, value, confidence, source}`.
Fields are optional because `mask_text` accepts arbitrary dicts and reads
them with `item.get(...)`; the detectors always fill all four fields. -/
structure Item where
  type : Option (List Char) := none
  value : Option (List Char) := none
  confidence : Option ℚ := none
  source : Option (List Char) := none
  deriving DecidableEq, Repr

/-- `detect_pii_rules(text)`: one record per regex match, four patterns
scanned independently, results in catalog order (Aadhaar, PAN, phone,
email), `source = "rule"`. -/
def detect_pii_rules (text : List Char) : List Item :=
  ((finditer tryAadhaar text).map fun v =>
    { type := some (("AADHAAR").data), value := some v,
      confidence := some ((0.98 : ℚ)), source := some (("rule").data) })
  ++ ((finditer tryPan text).map fun v =>
    { type := some (("PAN").data), value := some v,
      confidence := some ((0.97 : ℚ)), source := some (("rule").data) })
  ++ ((finditer tryPhone text).map fun v =>
    { type := some (("PHONE").data), value := some v,
      confidence := some ((0.95 : ℚ)), source := some (("rule").data) })
  ++ ((finditer tryEmail text).map fun v =>
    { type := some (("EMAIL").data), value := some v,
      confidence := some ((0.95 : ℚ)), source := some (("rule").data) })

/-- Modelled from the spec: the external spaCy model (not part of the
repository) yields "entity spans with a category label" (§4.3); an entity is
a labelled character span of the document. -/
structure SpacyEnt where
  label : List Char
  startChar : Nat
  endChar : Nat

/-- Modelled from the spec: `ent.text`, the verbatim text of the entity's
span within the document. -/
def entText (text : List Char) (e : SpacyEnt) : List Char :=
  (text.drop e.startChar).take (e.endChar - e.startChar)

/-- `detect_pii_ml(text)`: map `PERSON` entities to `NAME` records and
`GPE`/`LOC` entities to `ADDRESS` records, in entity order; other labels are
ignored.  `nlp` is the external entity model. -/
def detect_pii_ml (nlp : List Char → List SpacyEnt) (text : List Char) :
    List Item :=
  (nlp text).filterMap fun e =>
    if e.label = ("PERSON").data then
      some { type := some (("NAME").data), value := some (entText text e),
             confidence := some ((0.75 : ℚ)), source := some (("ml").data) }
    else if e.label = ("GPE").data ∨ e.label = ("LOC").data then
      some { type := some (("ADDRESS").data), value := some (entText text e),
             confidence := some ((0.70 : ℚ)), source := some (("ml").data) }
    else none

/-- `detect_pii(text)`: start from an empty list, extend with the rule hits,
then extend with the ML hits. -/
def detect_pii (nlp : List Char → List SpacyEnt) (text : List Char) :
    List Item :=
  let results : List Item := []
  let rule_hits := detect_pii_rules text
  let results := results ++ rule_hits
  let ml_hits := detect_pii_ml nlp text
  let results := results ++ ml_hits
  results

/-- An entity model returning no entities (used to instantiate the abstract
model at concrete inputs). -/
def noEnts : List Char → List SpacyEnt := fun _ => []

/-! ### Masking -/

/-- Python `value.split("@")` for a single-character separator: the list of
chunks between occurrences of `sep`; never empty, `[[]]` on the empty
string. -/
def pySplit (sep : Char) : List Char → List (List Char)
  | [] => [[]]
  | c :: cs =>
    if c = sep then
      [] :: pySplit sep cs
    else
      match pySplit sep cs with
      | [] => [[c]]
      | r :: rs => (c :: r) :: rs

/-- `mask_value(value, pii_type)`: the type-specific masked replacement.
Python's negative-index slice `value[-n:]` is `drop (length - n)`, the whole
string when `length < n`. -/
def mask_value (value : List Char) (pii_type : List Char) : List Char :=
  if pii_type = ("AADHAAR").data then
    ("XXXX XXXX ").data ++ value.drop (value.length - 4)
  else if pii_type = ("PAN").data then
    ("XXXXX").data ++ value.drop (value.length - 3)
  else if pii_type = ("PHONE").data then
    ("XXXXXX").data ++ value.drop (value.length - 4)
  else if pii_type = ("EMAIL").data then
    match pySplit '@' value with
    | [_, b] => ("xxxxx@").data ++ b
    | _ => ("[REDACTED EMAIL]").data
  else if pii_type = ("NAME").data ∨ pii_type = ("ADDRESS").data then
    ("[REDACTED ").data ++ pii_type ++ ("]").data
  else
    ("[REDACTED]").data

/-- Python `s.replace(old, new)` for non-empty `old`: scan left to right,
replace each non-overlapping occurrence, never rescanning the replacement.
`fuel` bounds the scan; each step consumes at least one character of `s`, so
`s.length` steps suffice. -/
def replaceAllAux (pat rep : List Char) : Nat → List Char → List Char
  | _, [] => []
  | 0, s => s
  | fuel + 1, c :: rest =>
    if pat ≠ [] ∧ pat.isPrefixOf (c :: rest) then
      rep ++ replaceAllAux pat rep fuel ((c :: rest).drop pat.length)
    else
      c :: replaceAllAux pat rep fuel rest

/-- Python `s.replace(pat, rep)` (the program only calls it with non-empty
`pat`; for empty `pat` this returns `s` unchanged). -/
def replaceAll (s pat rep : List Char) : List Char :=
  replaceAllAux pat rep s.length s

/-- `mask_text(text, pii_items)`: fold over the items in order; read `value`
(default `""`) and `type` (default `"UNKNOWN"`) from each, and when the
value is non-empty replace all its occurrences in the current text with its
mask. -/
def mask_text (text : List Char) (pii_items : List Item) : List Char :=
  pii_items.foldl
    (fun masked_text item =>
      let value := item.value.getD []
      let pii_type := item.type.getD (("UNKNOWN").data)
      match value with
      | [] => masked_text
      | _ :: _ => replaceAll masked_text value (mask_value value pii_type))
    text

/-! ## Helper lemmas -/

theorem detect_pii_unfold (nlp : List Char → List SpacyEnt) (text : List Char) :
    detect_pii nlp text = detect_pii_rules text ++ detect_pii_ml nlp text := rfl

theorem not_digit_of_not_word (c : Char) (h : isWordChar c = false) :
    c.isDigit = false := by
  cases hd : c.isDigit with
  | false => rfl
  | true => simp [isWordChar, Char.isAlphanum, hd] at h

theorem wordOpt_head_of_take (s : List Char)
    (hs : ∀ c ∈ s.take 1, isWordChar c = false) : wordOpt s.head? = false := by
  cases s with
  | nil => rfl
  | cons c s' => exact hs c (by simp)

theorem wordOpt_prevAfter (p : List Char) :
    ∀ (prev : Option Char), (∀ c ∈ p, isWordChar c = false) →
      wordOpt prev = false → wordOpt (prevAfter prev p) = false := by
  induction p with
  | nil => intro prev _ h; exact h
  | cons c p' ih =>
    intro prev hp _
    exact ih (some c) (fun d hd => hp d (List.mem_cons_of_mem _ hd))
      (hp c (List.mem_cons_self c p'))

theorem scanAux_step_none (try_ : Option Char → List Char → Option Nat)
    (f : Nat) (prev : Option Char) (c : Char) (cs : List Char)
    (h : try_ prev (c :: cs) = none) :
    scanAux try_ (f + 1) prev (c :: cs) = scanAux try_ f (some c) cs := by
  simp [scanAux, h]

theorem scanAux_step_some (try_ : Option Char → List Char → Option Nat)
    (f : Nat) (prev : Option Char) (cs : List Char) (n : Nat)
    (h : try_ prev cs = some n) :
    scanAux try_ (f + 1) prev cs =
      cs.take n :: scanAux try_ f (prevAfter prev (cs.take n)) (cs.drop n) := by
  simp [scanAux, h]

theorem scanAux_skip (try_ : Option Char → List Char → Option Nat) :
    ∀ (p : List Char),
      (∀ (prev : Option Char) (c : Char) (cs : List Char), c ∈ p →
        try_ prev (c :: cs) = none) →
      ∀ (f : Nat) (prev : Option Char) (rest : List Char),
        scanAux try_ (p.length + f) prev (p ++ rest) =
          scanAux try_ f (prevAfter prev p) rest := by
  intro p
  induction p with
  | nil => intro _ f prev rest; simp [prevAfter]
  | cons c p' ih =>
    intro hp f prev rest
    have h1 : (c :: p').length + f = (p'.length + f) + 1 := by
      simp [List.length_cons]; omega
    rw [h1, List.cons_append,
      scanAux_step_none try_ _ prev c (p' ++ rest)
        (hp prev c (p' ++ rest) (List.mem_cons_self c p')),
      ih (fun prev c cs hc => hp prev c cs (List.mem_cons_of_mem _ hc)) f
        (some c) rest]
    rfl

theorem scanAux_sound (try_ : Option Char → List Char → Option Nat) :
    ∀ (f : Nat) (prev : Option Char) (cs v : List Char),
      v ∈ scanAux try_ f prev cs → v <:+: cs := by
  intro f
  induction f with
  | zero => intro prev cs v h; simp [scanAux] at h
  | succ f ih =>
    intro prev cs v h
    cases htr : try_ prev cs with
    | some n =>
      rw [scanAux_step_some try_ f prev cs n htr] at h
      rcases List.mem_cons.mp h with h | h
      · subst h
        have hpre := List.take_prefix n cs
        exact hpre.isInfix
      · have hsuf := List.drop_suffix n cs
        exact (ih _ _ _ h).trans hsuf.isInfix
    | none =>
      cases cs with
      | nil => simp [scanAux, htr] at h
      | cons c rest =>
        rw [scanAux_step_none try_ f prev c rest htr] at h
        exact List.infix_cons (ih _ _ _ h)

theorem replaceAllAux_nil (pat rep : List Char) (f : Nat) :
    replaceAllAux pat rep f [] = [] := by
  cases f <;> rfl

theorem replaceAllAux_fuel (pat rep : List Char) :
    ∀ (f g : Nat) (s : List Char), s.length ≤ f → s.length ≤ g →
      replaceAllAux pat rep f s = replaceAllAux pat rep g s := by
  intro f
  induction f with
  | zero =>
    intro g s hf _
    have hs : s = [] := List.length_eq_zero.mp (Nat.le_zero.mp hf)
    subst hs
    rw [replaceAllAux_nil, replaceAllAux_nil]
  | succ f ih =>
    intro g s hf hg
    cases s with
    | nil => rw [replaceAllAux_nil, replaceAllAux_nil]
    | cons c rest =>
      cases g with
      | zero => simp at hg
      | succ g =>
        simp only [replaceAllAux]
        have hfc : rest.length + 1 ≤ f + 1 := by simpa using hf
        have hgc : rest.length + 1 ≤ g + 1 := by simpa using hg
        by_cases hc : pat ≠ [] ∧ pat.isPrefixOf (c :: rest)
        · rw [if_pos hc, if_pos hc]
          have hpl : 0 < pat.length := List.length_pos.mpr hc.1
          have hdl : ((c :: rest).drop pat.length).length
              = rest.length + 1 - pat.length := by
            simp [List.length_drop]
          have hd : ((c :: rest).drop pat.length).length ≤ f := by
            rw [hdl]; omega
          have hd' : ((c :: rest).drop pat.length).length ≤ g := by
            rw [hdl]; omega
          rw [ih g _ hd hd']
        · rw [if_neg hc, if_neg hc]
          rw [ih g rest (by omega) (by omega)]

theorem replaceAllAux_no_occ (pat rep : List Char) :
    ∀ (f : Nat) (s : List Char), ¬ pat <:+: s →
      replaceAllAux pat rep f s = s := by
  intro f
  induction f with
  | zero => intro s _; cases s <;> rfl
  | succ f ih =>
    intro s hocc
    cases s with
    | nil => rfl
    | cons c rest =>
      simp only [replaceAllAux]
      rw [if_neg]
      · rw [ih rest fun hi => hocc (List.infix_cons hi)]
      · rintro ⟨-, hpre⟩
        have hp := List.isPrefixOf_iff_prefix.mp hpre
        exact hocc hp.isInfix

theorem replaceAll_no_occ (s pat rep : List Char)
    (hocc : ¬ pat <:+: s) : replaceAll s pat rep = s :=
  replaceAllAux_no_occ pat rep s.length s hocc

theorem replaceAllAux_first_occ (v m : List Char) (hv : v ≠ []) :
    ∀ (a : List Char) (f : Nat) (b : List Char),
      (a ++ v ++ b).length ≤ f → ¬ v <:+: a ++ v.dropLast →
      replaceAllAux v m f (a ++ v ++ b) = a ++ m ++ replaceAll b v m := by
  intro a
  induction a with
  | nil =>
    intro f b hf _
    rw [List.nil_append]
    cases hv2 : v with
    | nil => exact absurd hv2 hv
    | cons c v' =>
      cases f with
      | zero =>
        rw [hv2] at hf
        simp at hf
      | succ f =>
        subst hv2
        rw [List.cons_append]
        simp only [replaceAllAux]
        rw [if_pos]
        · rw [← List.cons_append]
          have hdrop : ((c :: v') ++ b).drop (c :: v').length = b :=
            List.drop_left (c :: v') b
          rw [hdrop]
          have hfb : b.length ≤ f := by
            simp only [List.cons_append, List.length_cons, List.length_append]
              at hf
            omega
          rw [replaceAllAux_fuel (c :: v') m f b.length b hfb le_rfl]
          simp [replaceAll]
        · constructor
          · exact hv
          · have hpre := List.prefix_append (c :: v') b
            exact List.isPrefixOf_iff_prefix.mpr hpre
  | cons c a' ih =>
    intro f b hf hocc
    cases f with
    | zero => simp at hf
    | succ f =>
      rw [List.cons_append, List.cons_append]
      simp only [replaceAllAux]
      rw [if_neg]
      · have hf' : (a' ++ v ++ b).length ≤ f := by
          simp only [List.cons_append, List.length_cons, List.length_append]
            at hf
          simp only [List.length_append]
          omega
        have hocc' : ¬ v <:+: a' ++ v.dropLast := by
          intro hi
          exact hocc (by simpa [List.cons_append] using List.infix_cons hi)
        rw [ih f b hf' hocc']
        simp
      · rintro ⟨-, hpre⟩
        have hp1 := List.isPrefixOf_iff_prefix.mp hpre
        have hvlast : v.dropLast ++ [v.getLast hv] = v :=
          List.dropLast_append_getLast hv
        have hp2 : (c :: a') ++ v.dropLast <+: (c :: a') ++ v ++ b := by
          refine ⟨[v.getLast hv] ++ b, ?_⟩
          rw [List.append_assoc, List.append_assoc, ← List.append_assoc
            v.dropLast, hvlast]
        have hlen : v.length ≤ ((c :: a') ++ v.dropLast).length := by
          have hvp : 0 < v.length := List.length_pos.mpr hv
          simp only [List.length_append, List.length_cons,
            List.length_dropLast]
          omega
        have hp1' : v <+: (c :: a') ++ v ++ b := by
          simpa [List.cons_append] using hp1
        have hp3 := List.prefix_of_prefix_length_le hp1' hp2 hlen
        exact hocc hp3.isInfix

theorem replaceAll_first_occ (a v b m : List Char) (hv : v ≠ [])
    (hocc : ¬ v <:+: a ++ v.dropLast) :
    replaceAll (a ++ v ++ b) v m = a ++ m ++ replaceAll b v m :=
  replaceAllAux_first_occ v m hv a (a ++ v ++ b).length b le_rfl hocc

theorem pySplit_no_sep (sep : Char) :
    ∀ (cs : List Char), sep ∉ cs → pySplit sep cs = [cs] := by
  intro cs
  induction cs with
  | nil => intro _; rfl
  | cons c cs ih =>
    intro h
    have hc : ¬ c = sep := fun he => h (he ▸ List.mem_cons_self c cs)
    simp only [pySplit]
    rw [if_neg hc, ih (fun hm => h (List.mem_cons_of_mem _ hm))]

theorem pySplit_sep_append (sep : Char) :
    ∀ (a b : List Char), sep ∉ a →
      pySplit sep (a ++ sep :: b) = a :: pySplit sep b := by
  intro a
  induction a with
  | nil =>
    intro b _
    rw [List.nil_append]
    simp [pySplit]
  | cons c a' ih =>
    intro b h
    have hc : ¬ c = sep := fun he => h (he ▸ List.mem_cons_self c a')
    rw [List.cons_append]
    simp only [pySplit]
    rw [if_neg hc, ih b (fun hm => h (List.mem_cons_of_mem _ hm))]

theorem tryAadhaar_head_not_digit (prev : Option Char) (c : Char)
    (cs : List Char) (h : c.isDigit = false) :
    tryAadhaar prev (c :: cs) = none := by
  unfold tryAadhaar tryFixed
  cases hb : boundary prev (c :: cs).head? with
  | false => rfl
  | true => simp [aadhaarPat, matchSeq, h]

theorem tryAadhaar_occ (prev : Option Char) (s : List Char)
    (hprev : wordOpt prev = false) (hs : wordOpt s.head? = false) :
    tryAadhaar prev (("1234 5678 9012").data ++ s) = some 14 := by
  have hhead : (("1234 5678 9012").data ++ s).head? = some '1' := rfl
  have hb1 : boundary prev (("1234 5678 9012").data ++ s).head? = true := by
    rw [hhead]
    unfold boundary
    rw [hprev]
    rfl
  have hm : matchSeq aadhaarPat (("1234 5678 9012").data ++ s) = some s := rfl
  have htake : ((("1234 5678 9012").data ++ s).take aadhaarPat.length).getLast?
      = some '2' := rfl
  have hb2 : boundary ((("1234 5678 9012").data ++ s).take
      aadhaarPat.length).getLast? s.head? = true := by
    rw [htake]
    unfold boundary
    rw [hs]
    rfl
  unfold tryAadhaar tryFixed
  simp only [hb1, hm, hb2]
  rfl

/-- C1 (amended): for every text of the form `p ++ "1234 5678 9012" ++ s`
where `p` contains no word characters and `s` does not start with one,
`detect_pii` returns a Detection with `type = AADHAAR`,
`value = "1234 5678 9012"`, `confidence = 0.98` and the rule-provenance tag
(`source = "rule"`). -/
theorem detect_pii_aadhaar_word_bounded (nlp : List Char → List SpacyEnt)
    (p s : List Char)
    (hp : ∀ c ∈ p, isWordChar c = false)
    (hs : ∀ c ∈ s.take 1, isWordChar c = false) :
    { type := some (("AADHAAR").data), value := some (("1234 5678 9012").data),
      confidence := some ((0.98 : ℚ)), source := some (("rule").data) } ∈
      detect_pii nlp (p ++ ("1234 5678 9012").data ++ s) := by
  have hp' : ∀ (prev : Option Char) (c : Char) (cs : List Char), c ∈ p →
      tryAadhaar prev (c :: cs) = none := fun prev c cs hc =>
    tryAadhaar_head_not_digit prev c cs (not_digit_of_not_word c (hp c hc))
  have hprev0 : wordOpt (prevAfter none p) = false :=
    wordOpt_prevAfter p none hp rfl
  have hs0 : wordOpt s.head? = false := wordOpt_head_of_take s hs
  have hfind : ("1234 5678 9012").data ∈
      finditer tryAadhaar (p ++ ("1234 5678 9012").data ++ s) := by
    unfold finditer
    rw [List.append_assoc]
    have hlen : (p ++ (("1234 5678 9012").data ++ s)).length + 1
        = p.length + ((("1234 5678 9012").data ++ s).length + 1) := by
      simp only [List.length_append]
      omega
    rw [hlen,
      scanAux_skip tryAadhaar p hp'
        ((("1234 5678 9012").data ++ s).length + 1) none
        (("1234 5678 9012").data ++ s),
      scanAux_step_some tryAadhaar ((("1234 5678 9012").data ++ s).length)
        (prevAfter none p) (("1234 5678 9012").data ++ s) 14
        (tryAadhaar_occ (prevAfter none p) s hprev0 hs0)]
    have htake14 : (("1234 5678 9012").data ++ s).take 14
        = ("1234 5678 9012").data := rfl
    rw [htake14]
    exact List.mem_cons_self _ _
  rw [detect_pii_unfold]
  apply List.mem_append_left
  unfold detect_pii_rules
  apply List.mem_append_left
  apply List.mem_append_left
  apply List.mem_append_left
  exact List.mem_map_of_mem _ hfind

theorem detect_pii_aadhaar_word_bounded_witness :
    { type := some (("AADHAAR").data), value := some (("1234 5678 9012").data),
      confidence := some ((0.98 : ℚ)), source := some (("rule").data) } ∈
      detect_pii noEnts
        ((": ").data ++ ("1234 5678 9012").data ++ (" .").data) :=
  detect_pii_aadhaar_word_bounded noEnts ((": ").data) ((" .").data)
    (by decide) (by decide)

/-- C1 counterexample: the claim as stated is false.  In
`"91234 5678 9012"` the literal `"1234 5678 9012"` occurs but is not
word-bounded, and `detect_pii` returns nothing at all; in
`"5678 9012 1234 5678 9012"` the literal occurs word-bounded, yet the
earlier overlapping match `"5678 9012 1234"` consumes part of it, so no
Detection with that value is returned. -/
theorem aadhaar_substring_not_detected_cex :
    (("1234 5678 9012").data <:+: ("91234 5678 9012").data ∧
      detect_pii noEnts (("91234 5678 9012").data) = []) ∧
    (("1234 5678 9012").data <:+: ("5678 9012 1234 5678 9012").data ∧
      { type := some (("AADHAAR").data),
        value := some (("1234 5678 9012").data),
        confidence := some ((0.98 : ℚ)),
        source := some (("rule").data) } ∉
        detect_pii noEnts (("5678 9012 1234 5678 9012").data)) := by
  refine ⟨⟨by decide, by rfl⟩, ⟨by decide, by decide⟩⟩

theorem mask_text_cons_empty (text : List Char) (item : Item)
    (rest : List Item) (h : item.value.getD [] = []) :
    mask_text text (item :: rest) = mask_text text rest := by
  simp [mask_text, h]

theorem mask_text_cons_value (text : List Char) (item : Item)
    (rest : List Item) (hne : item.value.getD [] ≠ []) :
    mask_text text (item :: rest) =
      mask_text
        (replaceAll text (item.value.getD [])
          (mask_value (item.value.getD [])
            (item.type.getD (("UNKNOWN").data)))) rest := by
  cases hv : item.value.getD [] with
  | nil => exact absurd hv hne
  | cons c v' => simp [mask_text, hv]

/-- C6: masking with an empty selection is the identity on the text and is
not an error: `mask_text` is total and returns the input unchanged. -/
theorem mask_text_empty_selection (text : List Char) :
    mask_text text [] = text := rfl

/-- C2 counterexample: the claim fails as stated.  On the text
`"9012 9012 9012 9012 9012"` the Aadhaar rule genuinely detects the value
`"9012 9012 9012"` (first conjunct); masking that detection once yields
`"XXXX XXXX 9012 9012 9012"`, in which the value occurs again, so applying
the duplicate a second time masks further instead of being a no-op. -/
theorem mask_duplicate_not_noop_cex :
    { type := some (("AADHAAR").data), value := some (("9012 9012 9012").data),
      confidence := some ((0.98 : ℚ)), source := some (("rule").data) } ∈
      detect_pii noEnts (("9012 9012 9012 9012 9012").data) ∧
    mask_text (("9012 9012 9012 9012 9012").data)
        [{ type := some (("AADHAAR").data),
           value := some (("9012 9012 9012").data),
           confidence := some ((0.98 : ℚ)), source := some (("rule").data) },
         { type := some (("AADHAAR").data),
           value := some (("9012 9012 9012").data),
           confidence := some ((0.98 : ℚ)), source := some (("rule").data) }] ≠
      mask_text (("9012 9012 9012 9012 9012").data)
        [{ type := some (("AADHAAR").data),
           value := some (("9012 9012 9012").data),
           confidence := some ((0.98 : ℚ)),
           source := some (("rule").data) }] := by
  constructor
  · have h : detect_pii noEnts (("9012 9012 9012 9012 9012").data)
        = [{ type := some (("AADHAAR").data),
             value := some (("9012 9012 9012").data),
             confidence := some ((0.98 : ℚ)),
             source := some (("rule").data) }] := rfl
    rw [h]
    exact List.mem_singleton_self _
  · decide

/-- C2 (amended): masking a duplicated detection is a no-op on the second
pass provided the detection's value no longer occurs in the once-masked
text (which is the spec's own justification for the claim; it can fail when
a mask output recreates the value, as the counterexample shows). -/
theorem mask_duplicate_noop_of_value_gone (text : List Char) (d : Item)
    (h : ¬ (d.value.getD []) <:+: mask_text text [d]) :
    mask_text text [d, d] = mask_text text [d] := by
  by_cases hv : d.value.getD [] = []
  · rw [mask_text_cons_empty text d [d] hv]
  · have hR : mask_text text [d] = replaceAll text (d.value.getD [])
        (mask_value (d.value.getD []) (d.type.getD (("UNKNOWN").data))) := by
      rw [mask_text_cons_value text d [] hv]
      rfl
    rw [mask_text_cons_value text d [d] hv, hR]
    rw [mask_text_cons_value _ d [] hv]
    rw [hR] at h
    exact replaceAll_no_occ _ _ _ h

theorem mask_duplicate_noop_of_value_gone_witness :
    mask_text (("a 9876543210 b").data)
      [{ type := some (("PHONE").data), value := some (("9876543210").data),
         confidence := some ((0.95 : ℚ)), source := some (("rule").data) },
       { type := some (("PHONE").data), value := some (("9876543210").data),
         confidence := some ((0.95 : ℚ)), source := some (("rule").data) }] =
      mask_text (("a 9876543210 b").data)
        [{ type := some (("PHONE").data), value := some (("9876543210").data),
           confidence := some ((0.95 : ℚ)),
           source := some (("rule").data) }] :=
  mask_duplicate_noop_of_value_gone (("a 9876543210 b").data) _ (by decide)

/-- C8: the engine recovers from data-shape issues instead of failing: a
detection with a missing or empty value is skipped by `mask_text`, and a
type outside the known set is masked with the generic `"[REDACTED]"` label
by `mask_value` (both functions are total, so no exception escapes). -/
theorem mask_skips_missing_value_and_redacts_unknown :
    (∀ (text : List Char) (item : Item) (rest : List Item),
      item.value.getD [] = [] →
      mask_text text (item :: rest) = mask_text text rest) ∧
    (∀ (v ty : List Char), ty ≠ ("AADHAAR").data → ty ≠ ("PAN").data →
      ty ≠ ("PHONE").data → ty ≠ ("EMAIL").data → ty ≠ ("NAME").data →
      ty ≠ ("ADDRESS").data → mask_value v ty = ("[REDACTED]").data) := by
  constructor
  · exact fun text item rest h => mask_text_cons_empty text item rest h
  · intro v ty h1 h2 h3 h4 h5 h6
    unfold mask_value
    rw [if_neg h1, if_neg h2, if_neg h3, if_neg h4,
      if_neg (fun hor => hor.elim h5 h6)]

theorem mask_skips_missing_value_and_redacts_unknown_witness :
    mask_text (("abc").data) [{}] = mask_text (("abc").data) [] ∧
    mask_value (("x").data) (("FOO").data) = ("[REDACTED]").data :=
  ⟨mask_skips_missing_value_and_redacts_unknown.1 (("abc").data) {} [] rfl,
   mask_skips_missing_value_and_redacts_unknown.2 (("x").data) (("FOO").data)
     (by decide) (by decide) (by decide) (by decide) (by decide) (by decide)⟩

/-- C9: for a non-empty value shorter than the kept suffix, the suffix
slice is the whole value, so the AADHAAR/PHONE masks (fewer than 4
characters) and the PAN mask (fewer than 3) expose the entire original
value verbatim after the fixed placeholder. -/
theorem mask_value_short_value_exposed (v : List Char) (_hne : v ≠ []) :
    (v.length < 4 →
      mask_value v (("AADHAAR").data) = ("XXXX XXXX ").data ++ v ∧
      mask_value v (("PHONE").data) = ("XXXXXX").data ++ v) ∧
    (v.length < 3 → mask_value v (("PAN").data) = ("XXXXX").data ++ v) := by
  constructor
  · intro h4
    have hd : v.length - 4 = 0 := by omega
    constructor
    · unfold mask_value
      rw [if_pos rfl, hd, List.drop_zero]
    · unfold mask_value
      rw [if_neg (by decide), if_neg (by decide), if_pos rfl, hd,
        List.drop_zero]
  · intro h3
    have hd : v.length - 3 = 0 := by omega
    unfold mask_value
    rw [if_neg (by decide), if_pos rfl, hd, List.drop_zero]

theorem mask_value_short_value_exposed_witness :
    mask_value (("12").data) (("AADHAAR").data)
        = ("XXXX XXXX ").data ++ ("12").data ∧
    mask_value (("12").data) (("PHONE").data)
        = ("XXXXXX").data ++ ("12").data ∧
    mask_value (("12").data) (("PAN").data)
        = ("XXXXX").data ++ ("12").data :=
  ⟨((mask_value_short_value_exposed (("12").data) (by decide)).1
      (by decide)).1,
   ((mask_value_short_value_exposed (("12").data) (by decide)).1
      (by decide)).2,
   (mask_value_short_value_exposed (("12").data) (by decide)).2 (by decide)⟩

/-- C10: when no selected detection's value occurs in the text (or values
are missing or empty), masking changes nothing: string replacement of an
absent value is the identity, so the masker never alters characters outside
occurrences of selected values. -/
theorem mask_text_absent_values_id (text : List Char) :
    ∀ (items : List Item),
      (∀ item ∈ items, item.value.getD [] = [] ∨
        ¬ (item.value.getD []) <:+: text) →
      mask_text text items = text := by
  intro items
  induction items with
  | nil => intro _; rfl
  | cons item rest ih =>
    intro h
    by_cases hv : item.value.getD [] = []
    · rw [mask_text_cons_empty text item rest hv]
      exact ih (fun i hi => h i (List.mem_cons_of_mem _ hi))
    · rcases h item (List.mem_cons_self item rest) with hv' | hocc
      · exact absurd hv' hv
      · rw [mask_text_cons_value text item rest hv,
          replaceAll_no_occ text _ _ hocc]
        exact ih (fun i hi => h i (List.mem_cons_of_mem _ hi))

theorem mask_text_absent_values_id_witness :
    mask_text (("hello world").data)
      [{ type := some (("PHONE").data), value := some (("9876543210").data),
         confidence := some ((0.95 : ℚ)), source := some (("rule").data) }] =
      ("hello world").data :=
  mask_text_absent_values_id (("hello world").data) _ (by decide)

/-- C3: `mask_text` processes the selected detections sequentially in the
order given (masking a concatenation of selections equals masking the
second part of the already-masked text), and a single detection with
non-empty value replaces every literal occurrence of that value in the
whole document with `mask_value value type` — here both exhibited
occurrences, not just the first. -/
theorem mask_text_sequential_replaces_all :
    (∀ (text : List Char) (is js : List Item),
      mask_text text (is ++ js) = mask_text (mask_text text is) js) ∧
    (∀ (a v b c ty : List Char) (item : Item),
      item.value = some v → item.type = some ty → v ≠ [] →
      ¬ v <:+: a ++ v.dropLast → ¬ v <:+: b ++ v.dropLast → ¬ v <:+: c →
      mask_text (a ++ v ++ b ++ v ++ c) [item] =
        a ++ mask_value v ty ++ b ++ mask_value v ty ++ c) := by
  constructor
  · intro text is js
    simp [mask_text, List.foldl_append]
  · intro a v b c ty item hval hty hv h1 h2 h3
    have hgetv : item.value.getD [] = v := by rw [hval]; rfl
    have hgett : item.type.getD (("UNKNOWN").data) = ty := by rw [hty]; rfl
    have hne : item.value.getD [] ≠ [] := by rw [hgetv]; exact hv
    rw [mask_text_cons_value (a ++ v ++ b ++ v ++ c) item [] hne, hgetv,
      hgett]
    show replaceAll (a ++ v ++ b ++ v ++ c) v (mask_value v ty)
        = a ++ mask_value v ty ++ b ++ mask_value v ty ++ c
    have hassoc : a ++ v ++ b ++ v ++ c = a ++ v ++ (b ++ v ++ c) := by
      simp [List.append_assoc]
    rw [hassoc, replaceAll_first_occ a v (b ++ v ++ c) (mask_value v ty) hv h1,
      replaceAll_first_occ b v c (mask_value v ty) hv h2,
      replaceAll_no_occ c v (mask_value v ty) h3]
    simp [List.append_assoc]

theorem mask_text_sequential_replaces_all_witness :
    mask_text (("p ").data ++ ("9876543210").data ++ (" q ").data ++
        ("9876543210").data ++ (" r").data)
      [{ type := some (("PHONE").data), value := some (("9876543210").data),
         confidence := some ((0.95 : ℚ)), source := some (("rule").data) }] =
      ("p ").data ++ mask_value (("9876543210").data) (("PHONE").data) ++
        (" q ").data ++ mask_value (("9876543210").data) (("PHONE").data) ++
        (" r").data :=
  mask_text_sequential_replaces_all.2 (("p ").data) (("9876543210").data)
    ((" q ").data) ((" r").data) (("PHONE").data)
    { type := some (("PHONE").data), value := some (("9876543210").data),
      confidence := some ((0.95 : ℚ)), source := some (("rule").data) }
    rfl rfl (by decide) (by decide) (by decide) (by decide)

/-- C4: `detect_pii` is exactly the rule detector's output followed by the
entity detector's output — concatenation with no deduplication, filtering,
merging or reordering. -/
theorem detect_pii_concat_rules_then_ml (nlp : List Char → List SpacyEnt)
    (text : List Char) :
    detect_pii nlp text = detect_pii_rules text ++ detect_pii_ml nlp text :=
  rfl

/-- C5: the EMAIL mask splits on `@`; with exactly two parts it returns
`"xxxxx@"` plus the domain part, otherwise the literal
`"[REDACTED EMAIL]"`; for a well-formed value with exactly one `@` the
result is `"xxxxx"` followed by `@` and everything after the `@`. -/
theorem mask_value_email_spec :
    (∀ (v a b : List Char), pySplit '@' v = [a, b] →
      mask_value v (("EMAIL").data) = ("xxxxx@").data ++ b) ∧
    (∀ (v : List Char), (pySplit '@' v).length ≠ 2 →
      mask_value v (("EMAIL").data) = ("[REDACTED EMAIL]").data) ∧
    (∀ (a b : List Char), '@' ∉ a → '@' ∉ b →
      mask_value (a ++ '@' :: b) (("EMAIL").data)
        = ("xxxxx").data ++ '@' :: b) := by
  refine ⟨?_, ?_, ?_⟩
  · intro v a b h
    unfold mask_value
    rw [if_neg (by decide), if_neg (by decide), if_neg (by decide),
      if_pos rfl]
    simp only [h]
  · intro v h
    unfold mask_value
    rw [if_neg (by decide), if_neg (by decide), if_neg (by decide),
      if_pos rfl]
    cases hs : pySplit '@' v with
    | nil => rfl
    | cons r rs =>
      cases rs with
      | nil => rfl
      | cons r2 rs2 =>
        cases rs2 with
        | nil => exact absurd (by rw [hs]; rfl) h
        | cons r3 rs3 => rfl
  · intro a b ha hb
    have hsplit : pySplit '@' (a ++ '@' :: b) = [a, b] := by
      rw [pySplit_sep_append '@' a b ha, pySplit_no_sep '@' b hb]
    unfold mask_value
    rw [if_neg (by decide), if_neg (by decide), if_neg (by decide),
      if_pos rfl]
    simp only [hsplit]
    rfl

theorem mask_value_email_spec_witness :
    mask_value (("ab").data ++ '@' :: ("cd.com").data) (("EMAIL").data)
      = ("xxxxx").data ++ '@' :: ("cd.com").data :=
  mask_value_email_spec.2.2 (("ab").data) (("cd.com").data) (by decide)
    (by decide)

/-- C7: every Detection returned by `detect_pii` carries a value that
occurs literally as a substring of the scanned text — rule detections are
slices emitted by the finditer scan, and entity detections are spans of the
document. -/
theorem detect_pii_value_occurs_in_text (nlp : List Char → List SpacyEnt)
    (text : List Char) (item : Item) (h : item ∈ detect_pii nlp text) :
    ∃ v, item.value = some v ∧ v <:+: text := by
  rw [detect_pii_unfold] at h
  rcases List.mem_append.mp h with h | h
  · unfold detect_pii_rules at h
    simp only [List.mem_append, List.mem_map] at h
    rcases h with (((⟨v, hv, rfl⟩ | ⟨v, hv, rfl⟩) | ⟨v, hv, rfl⟩) |
      ⟨v, hv, rfl⟩) <;>
      exact ⟨v, rfl, scanAux_sound _ _ _ _ _ hv⟩
  · unfold detect_pii_ml at h
    simp only [List.mem_filterMap] at h
    rcases h with ⟨e, _, hfe⟩
    have hspan : entText text e <:+: text := by
      unfold entText
      have h1 := List.take_prefix (e.endChar - e.startChar)
        (text.drop e.startChar)
      have h2 := List.drop_suffix e.startChar text
      exact h1.isInfix.trans h2.isInfix
    by_cases h1 : e.label = ("PERSON").data
    · rw [if_pos h1] at hfe
      injection hfe with hfe
      subst hfe
      exact ⟨entText text e, rfl, hspan⟩
    · rw [if_neg h1] at hfe
      by_cases h2 : e.label = ("GPE").data ∨ e.label = ("LOC").data
      · rw [if_pos h2] at hfe
        injection hfe with hfe
        subst hfe
        exact ⟨entText text e, rfl, hspan⟩
      · rw [if_neg h2] at hfe
        exact absurd hfe (by simp)

theorem detect_pii_value_occurs_in_text_witness :
    ∃ v, ({ type := some (("PHONE").data),
            value := some (("9876543210").data),
            confidence := some ((0.95 : ℚ)),
            source := some (("rule").data) } : Item).value = some v ∧
      v <:+: ("9876543210").data := by
  apply detect_pii_value_occurs_in_text noEnts (("9876543210").data)
  have h : detect_pii noEnts (("9876543210").data)
      = [{ type := some (("PHONE").data),
           value := some (("9876543210").data),
           confidence := some ((0.95 : ℚ)),
           source := some (("rule").data) }] := rfl
  rw [h]
  exact List.mem_singleton_self _
